import Mathlib

/-!
Verification development for the ThreadCanvas repository.

The definitions below are a shallow embedding of the TypeScript source:
`src/App.tsx` (thread resolution, branch navigation, chapter segmentation),
`src/services/gemini.ts` (topic classification fallback chain) and
`src/components/CanvasView.tsx` (message grouping and graph layout).
JavaScript numbers that only ever hold integer timestamps are modelled as
`Int`; layout coordinates (which are divided by 2) are modelled as `Rat`.
JavaScript `null` is modelled as `Option.none`.  JavaScript stable
`Array.prototype.sort` with a timestamp comparator is modelled by the stable
`List.insertionSort`.
-/

namespace ThreadCanvas

/-- `Author` enum from `src/types.ts`. -/
inductive Author where
  | USER
  | ASSISTANT
deriving DecidableEq, Repr

/-- `MessageCategory` enum from `src/types.ts`. -/
inductive MessageCategory where
  | CONTEXT
  | BRAINSTORM
  | REFINEMENT
  | TANGENT
  | DECISION
deriving DecidableEq, Repr

/-- `Message` record from `src/types.ts` (the persisted fields; the optional
sibling-annotation fields live on `AnnotatedMessage` below, mirroring how
`currentThread` in `src/App.tsx` adds them at read time). -/
structure Message where
  id : String
  parentId : Option String
  author : Author
  content : String
  timestamp : Int
deriving DecidableEq, Repr

/-- `Chapter` record from `src/types.ts`. -/
structure Chapter where
  id : String
  title : String
  category : MessageCategory
  startMessageId : String
  messageCount : Nat
  subtopics : List String
deriving DecidableEq, Repr

/-- The `ROOT_MESSAGE` sentinel from `src/constants.ts` (its `Date.now()`
timestamp is irrelevant to all logic; we fix it to 0). -/
def ROOT_MESSAGE : Message :=
  { id := "root", parentId := none, author := Author.ASSISTANT,
    content := "SYSTEM_ROOT", timestamp := 0 }

/-- Stable ascending sort by `timestamp`: the model of
`siblings.sort((a, b) => a.timestamp - b.timestamp)`. -/
def sortByTsAsc (l : List Message) : List Message :=
  List.insertionSort (fun a b => a.timestamp ≤ b.timestamp) l

/-- Stable descending sort by `timestamp`: the model of
`children.sort((a, b) => b.timestamp - a.timestamp)`. -/
def sortByTsDesc (l : List Message) : List Message :=
  List.insertionSort (fun a b => b.timestamp ≤ a.timestamp) l

/-! ## Thread Resolver (`currentThread` in `src/App.tsx`, lines 50-120) -/

/-- `MAX_DEPTH` bound of the thread walk in `currentThread`. -/
def MAX_DEPTH : Nat := 5000

/-- One step of the `while (currentId && loopSafety < MAX_DEPTH)` loop of
`currentThread`: look the current id up (first match, as `Array.find` does),
prepend the message unless it is the root sentinel, and follow `parentId`.
The `Nat` fuel is exactly the remaining `loopSafety` budget; a JavaScript
empty-string id is falsy and also stops the loop. -/
def threadWalkGo (messages : List Message) : Nat → Option String → List Message → List Message
  | 0, _, acc => acc
  | _ + 1, none, acc => acc
  | fuel + 1, some cid, acc =>
    if cid = "" then acc
    else
      match messages.find? (fun m => m.id = cid) with
      | none => acc
      | some msg =>
        threadWalkGo messages fuel msg.parentId
          (if msg.id = ROOT_MESSAGE.id then acc else msg :: acc)

/-- The bounded parent walk of `currentThread`: collects the path from
`headId` up to the root (root excluded), in root-to-head order. -/
def threadWalk (messages : List Message) (headId : String) : List Message :=
  threadWalkGo messages MAX_DEPTH (some headId) []

/-- The virtual `ghostMsg` placeholder synthesized by `currentThread` while a
draft branch is in progress. -/
def ghostMsg (activeBranchHeadId : String) (now : Int) : Message :=
  { id := "ghost-draft", parentId := some activeBranchHeadId,
    author := Author.USER, content := "", timestamp := now }

/-- A thread entry as returned by `currentThread`: the message plus the
sibling-navigation annotation added by the trailing `map`.  Messages that are
returned unannotated (no `parentId`, or an empty sibling group) carry `none`
in every annotation field. -/
structure AnnotatedMessage where
  base : Message
  siblingCount : Option Nat
  siblingIndex : Option Int
  prevSibling : Option Message
  nextSibling : Option Message
deriving DecidableEq, Repr

/-- An unannotated thread entry (the `return msg` paths of the map). -/
def plainAnnotated (m : Message) : AnnotatedMessage :=
  { base := m, siblingCount := none, siblingIndex := none,
    prevSibling := none, nextSibling := none }

/-- `siblings[i]` for a possibly negative JavaScript index. -/
def listGetInt (l : List Message) (i : Int) : Option Message :=
  if i < 0 then none else l.get? i.toNat

/-- The `prev?.id === "ghost-draft" ? undefined : prev` guard of the
annotation map: the ghost placeholder is never reported as a neighbour. -/
def dropGhost (o : Option Message) : Option Message :=
  match o with
  | some p => if p.id = "ghost-draft" then none else some p
  | none => none

/-- The sibling-group computation of the annotation map: the full-store
sibling group sorted by timestamp, with the ghost draft appended at the fork
point while drafting, and — for the ghost element itself — the real children
of the active head plus the ghost as its last member. -/
def siblingGroupFor (messages : List Message) (activeBranchHeadId : String)
    (isDraftingBranch : Bool) (now : Int) (msg : Message) (pid : String) :
    List Message :=
  let siblings := sortByTsAsc (messages.filter (fun m => m.parentId = some pid))
  let siblings :=
    if isDraftingBranch ∧ pid = activeBranchHeadId ∧
        ¬ siblings.any (fun s => s.id = "ghost-draft") then
      siblings ++ [ghostMsg activeBranchHeadId now]
    else siblings
  if msg.id = "ghost-draft" then
    sortByTsAsc (messages.filter (fun m => m.parentId = some activeBranchHeadId)) ++ [msg]
  else siblings

/-- The index/neighbour computation of the annotation map over a sibling
group: locate `msg` by id (JavaScript `findIndex` yields -1 on a miss),
report the 1-based index and the group size, and read off the prev/next
neighbours through the ghost guard. -/
def annotateWith (siblings : List Message) (msg : Message) : AnnotatedMessage :=
  if 1 ≤ siblings.length then
    let idx : Int :=
      match siblings.findIdx? (fun s => s.id = msg.id) with
      | some i => (i : Int)
      | none => -1
    { base := msg,
      siblingCount := some siblings.length,
      siblingIndex := some (idx + 1),
      prevSibling := dropGhost (listGetInt siblings (idx - 1)),
      nextSibling := dropGhost (listGetInt siblings (idx + 1)) }
  else plainAnnotated msg

/-- The body of the annotation `map` of `currentThread` for one thread
element `msg`: recompute the sibling group from the full store, splice the
ghost draft in, locate `msg` by id, and read off the prev/next neighbours
(filtering the ghost out of them). -/
def annotateMsg (messages : List Message) (activeBranchHeadId : String)
    (isDraftingBranch : Bool) (now : Int) (msg : Message) : AnnotatedMessage :=
  match msg.parentId with
  | none => plainAnnotated msg
  | some pid =>
    annotateWith (siblingGroupFor messages activeBranchHeadId isDraftingBranch now msg pid) msg

/-- `currentThread` from `src/App.tsx`: the bounded walk, the pushed ghost
draft placeholder, and the sibling annotation map. -/
def currentThread (messages : List Message) (activeBranchHeadId : String)
    (isDraftingBranch : Bool) (now : Int) : List AnnotatedMessage :=
  let thread := threadWalk messages activeBranchHeadId
  let thread :=
    if isDraftingBranch then thread ++ [ghostMsg activeBranchHeadId now] else thread
  thread.map (annotateMsg messages activeBranchHeadId isDraftingBranch now)

/-! ## JavaScript string primitives

Implemented over the character list (structural recursion) so that every
definition in this file evaluates inside the kernel on concrete inputs. -/

/-- `String.prototype.toLowerCase` (character-wise lowering). -/
def jsToLower (s : String) : String :=
  String.mk (s.data.map Char.toLower)

/-- `String.prototype.trim`: strip leading and trailing whitespace. -/
def jsTrim (s : String) : String :=
  String.mk (((s.data.dropWhile Char.isWhitespace).reverse.dropWhile
    Char.isWhitespace).reverse)

/-- `String.prototype.startsWith`. -/
def jsStartsWith (s p : String) : Bool :=
  p.data.isPrefixOf s.data

/-- `String.prototype.endsWith`. -/
def jsEndsWith (s p : String) : Bool :=
  p.data.reverse.isPrefixOf s.data.reverse

/-- Occurrence test of a needle at any position of a character list. -/
def subOccurs (needle : List Char) : List Char → Bool
  | [] => needle.isEmpty
  | c :: rest => needle.isPrefixOf (c :: rest) || subOccurs needle rest

/-- Split a character list at every occurrence of a separator character
(`String.prototype.split`, keeping empty pieces). -/
def splitLines : List Char → List (List Char)
  | [] => [[]]
  | c :: rest =>
    match splitLines rest with
    | [] => [[c]]
    | h :: t => if c = '\n' then [] :: h :: t else (c :: h) :: t

/-- The lines of a string (`text.split("\n")`). -/
def linesOf (s : String) : List String :=
  (splitLines s.data).map String.mk

/-- `lines.join("\n")`. -/
def joinLines (xs : List String) : String :=
  String.mk (List.intercalate ['\n'] (xs.map String.data))

/-! ## Chapter Segmenter (`src/App.tsx`, lines 158-282) -/

/-- JavaScript `String.prototype.includes`, used by `determineCategory` and
the `hasCode` flag. -/
def strIncludes (s sub : String) : Bool :=
  subOccurs sub.data s.data

/-- `determineCategory` from `src/App.tsx`. -/
def determineCategory (title : String) : MessageCategory :=
  let t := jsToLower title
  if t = "same" then MessageCategory.REFINEMENT
  else if strIncludes t "brainstorm" ∨ strIncludes t "idea" then MessageCategory.BRAINSTORM
  else if strIncludes t "decision" ∨ strIncludes t "select" then MessageCategory.DECISION
  else if strIncludes t "refine" ∨ strIncludes t "fix" ∨ strIncludes t "edit" ∨
      strIncludes t "improve" then MessageCategory.REFINEMENT
  else if strIncludes t "context" ∨ strIncludes t "analyze" ∨ strIncludes t "greeting" ∨
      strIncludes t "start" then MessageCategory.CONTEXT
  else MessageCategory.TANGENT

/-- The `IGNORED_WORDS` list of `extractSubtopics`. -/
def IGNORED_WORDS : List String :=
  ["hey", "hello", "hi", "ok", "okay", "thanks", "thank you", "yes", "no",
   "sure", "start"]

/-- The truncation step of `extractSubtopics`: messages longer than 55
characters are cut to 55, trimmed, and suffixed with an ellipsis. -/
def truncate55 (s : String) : String :=
  if 55 < s.length then jsTrim (s.take 55) ++ "..." else s

/-- `extractSubtopics` from `src/App.tsx`. -/
def extractSubtopics (msgs : List Message) : List String :=
  ((msgs.filter (fun m =>
      let content := jsTrim (jsToLower m.content)
      m.author = Author.USER ∧ ¬ IGNORED_WORDS.contains content ∧
        1 < m.content.length)).take 2).map (fun m => truncate55 m.content)

/-- Order-preserving first-occurrence deduplication, the model of
`Array.from(new Set(...))` (a JavaScript `Set` keeps insertion order). -/
def jsSetDedupGo : List String → List String → List String
  | _, [] => []
  | seen, x :: xs =>
    if seen.contains x then jsSetDedupGo seen xs
    else x :: jsSetDedupGo (x :: seen) xs

/-- `Array.from(new Set(a ++ b)).slice(0, 12)`: the subtopic merge used by
every chapter-extension path. -/
def mergeSubtopics (old new : List String) : List String :=
  (jsSetDedupGo [] (old ++ new)).take 12

/-- Update the element at index `i` (no-op when out of range), modelling an
in-place `updated[i] = {...}` write on a copied array. -/
def updateAt {α : Type} (l : List α) (i : Nat) (f : α → α) : List α :=
  match l.get? i with
  | some a => l.set i (f a)
  | none => l

/-- The `findLastIndex` polyfill of the fold-in (search from the end). -/
def findLastIdx {α : Type} (l : List α) (p : α → Bool) : Option Nat :=
  match l.reverse.findIdx? p with
  | some i => some (l.length - 1 - i)
  | none => none

/-- The `setChapters` callback of the segmenter effect (`src/App.tsx`,
lines 186-245): fold one classification `result` for the captured batch
`bufferMessages` (with `newMessagesCount` new messages and the captured
thread `validMessages`) into the chapter list `prev`.  `newChapterId` stands
for the generated `chap-${Date.now()}` id. -/
def foldClassification (prev : List Chapter) (result : String)
    (bufferMessages : List Message) (newMessagesCount : Nat)
    (validMessages : List Message) (newChapterId : String) : List Chapter :=
  match bufferMessages.head? with
  | none => prev
  | some startMsg =>
    match prev.findIdx? (fun c => c.startMessageId = startMsg.id) with
    | some i =>
      updateAt prev i (fun existing =>
        { existing with
          title := if result = "SAME" then existing.title else result,
          messageCount := existing.messageCount + newMessagesCount,
          subtopics :=
            mergeSubtopics existing.subtopics (extractSubtopics bufferMessages) })
    | none =>
      let appendNew : List Chapter :=
        prev ++ [{ id := newChapterId,
                   title := if result = "SAME" then "Greeting" else result,
                   category := determineCategory result,
                   startMessageId := startMsg.id,
                   messageCount := if newMessagesCount = 0 then 1 else newMessagesCount,
                   subtopics := extractSubtopics bufferMessages }]
      if result = "SAME" ∧ 0 < prev.length then
        let threadIds := validMessages.map Message.id
        match findLastIdx prev (fun c => threadIds.contains c.startMessageId) with
        | some j =>
          updateAt prev j (fun lastChap =>
            { lastChap with
              messageCount := lastChap.messageCount + newMessagesCount,
              subtopics :=
                mergeSubtopics lastChap.subtopics (extractSubtopics bufferMessages) })
        | none => appendNew
      else appendNew

/-! ## Branch submission (`handleSendMessage` in `src/App.tsx`, lines 378-456) -/

/-- The `isBranching` detection of `handleSendMessage`: an explicit draft in
progress, or an implicit fork (the active head already has children and is
not the structural root). -/
def isBranching (messages : List Message) (activeBranchHeadId : String)
    (wasDrafting : Bool) : Bool :=
  wasDrafting ∨
    (messages.any (fun m => m.parentId = some activeBranchHeadId) ∧
      activeBranchHeadId ≠ "root")

/-- Title of the eagerly created branch chapter:
`Branch: ${content.slice(0, 15)}${content.length > 15 ? "..." : ""}`. -/
def branchChapterTitle (content : String) : String :=
  "Branch: " ++ content.take 15 ++ (if 15 < content.length then "..." else "")

/-- The immediate-branch-chapter step of `handleSendMessage`: the chapter
appended to the chapter list at submit time (if any).  `newMsgId` is the id
of the just-created user message and `chapId` the generated chapter id. -/
def sendMessageEagerChapter (messages : List Message) (activeBranchHeadId : String)
    (wasDrafting : Bool) (content newMsgId chapId : String) : Option Chapter :=
  if isBranching messages activeBranchHeadId wasDrafting then
    some { id := chapId, title := branchChapterTitle content,
           category := MessageCategory.DECISION, startMessageId := newMsgId,
           messageCount := 0, subtopics := [] }
  else none

/-! ## Topic classification fallback chain (`src/services/gemini.ts`) -/

/-- One application of `result.replace(/^"|"$/g, "")`: drop a single leading
and a single trailing double quote. -/
def stripEdgeQuotes (s : String) : String :=
  let s1 := if jsStartsWith s "\"" then s.drop 1 else s
  if jsEndsWith s1 "\"" then s1.dropRight 1 else s1

/-- The `for (const strategy of strategies) { const result = await strategy();
if (result) ... }` loop: the first strategy result that is truthy (neither
`null` nor the empty string). -/
def firstTruthy (l : List (Option String)) : Option String :=
  l.findSome? (fun o =>
    match o with
    | some s => if s = "" then none else some s
    | none => none)

/-- `generateInitialTitle` from `src/services/gemini.ts`, abstracted over the
values the two provider strategies resolve to (`none` models a failed/null
strategy).  The prompt text does not influence the returned value. -/
def generateInitialTitle (preferOllama : Bool)
    (geminiRes ollamaRes : Option String) : String :=
  let strategies := if preferOllama then [ollamaRes, geminiRes] else [geminiRes, ollamaRes]
  match firstTruthy strategies with
  | some r => stripEdgeQuotes (jsTrim r)
  | none => "Conversation Start"

/-- `analyzeTopicShift` from `src/services/gemini.ts`, abstracted over the
provider strategy results the same way.  The source guard is
`if (!currentTopic)`: JavaScript falsiness, so it delegates to
`generateInitialTitle` both when the prior topic is `null` and when it is
the empty string. -/
def analyzeTopicShift (currentTopic : Option String) (preferOllama : Bool)
    (geminiRes ollamaRes : Option String) : String :=
  match currentTopic with
  | none => generateInitialTitle preferOllama geminiRes ollamaRes
  | some topic =>
    if topic = "" then generateInitialTitle preferOllama geminiRes ollamaRes
    else
      let strategies := if preferOllama then [ollamaRes, geminiRes] else [geminiRes, ollamaRes]
      match firstTruthy strategies with
      | some r =>
        let clean := stripEdgeQuotes (jsTrim r)
        if jsToLower clean = jsToLower topic then "SAME" else clean
      | none => "SAME"

/-! ## Branch swiping (`handleSwipeBranch` in `src/App.tsx`, lines 468-507) -/

inductive SwipeDir where
  | prev
  | next
deriving DecidableEq, Repr

/-- The unbounded `while (hasChild)` descent loop at the end of
`handleSwipeBranch`, made total with explicit fuel: follow, at each level,
the child with the greatest timestamp (`children.sort((a, b) =>
b.timestamp - a.timestamp)` then `children[0]`).  `none` means the fuel ran
out before a leaf was reached — the situations in which the source loop
would run forever (see the termination theorem for this loop). -/
def descendFuel (messages : List Message) : Nat → String → Option String
  | 0, _ => none
  | fuel + 1, pointer =>
    match sortByTsDesc (messages.filter (fun m => m.parentId = some pointer)) with
    | [] => some pointer
    | c :: _ => descendFuel messages fuel c.id

/-- The sibling-selection part of `handleSwipeBranch`: resolve the effective
parent, sort the sibling group by timestamp, compute the new index with
wraparound, and return the chosen target sibling. -/
def swipeTarget (messages : List Message) (activeBranchHeadId currentMsgId : String)
    (direction : SwipeDir) : Option Message :=
  let currentMsg := messages.find? (fun m => m.id = currentMsgId)
  let effectiveParentId : Option String :=
    match currentMsg with
    | some m => m.parentId
    | none => if currentMsgId = "ghost-draft" then some activeBranchHeadId else none
  match effectiveParentId with
  | none => none
  | some pid =>
    let siblings := sortByTsAsc (messages.filter (fun m => m.parentId = some pid))
    let currentIndex : Int :=
      if currentMsgId = "ghost-draft" then (siblings.length : Int)
      else
        match siblings.findIdx? (fun s => s.id = currentMsgId) with
        | some i => (i : Int)
        | none => -1
    if currentIndex = -1 then none
    else
      let nextIndex : Int :=
        if direction = SwipeDir.next then currentIndex + 1 else currentIndex - 1
      let nextIndex :=
        if currentMsgId = "ghost-draft" ∧ direction = SwipeDir.prev then
          (siblings.length : Int) - 1
        else nextIndex
      let nextIndex := if (siblings.length : Int) ≤ nextIndex then 0 else nextIndex
      let nextIndex := if nextIndex < 0 then (siblings.length : Int) - 1 else nextIndex
      listGetInt siblings nextIndex

/-- `handleSwipeBranch` as a head computation: the new
`activeBranchHeadId` it assigns (and `none` on its early-return paths).
The descent fuel `messages.length + 1` is sufficient exactly on stores whose
parent links are acyclic. -/
def handleSwipeBranch (messages : List Message) (activeBranchHeadId currentMsgId : String)
    (direction : SwipeDir) : Option String :=
  (swipeTarget messages activeBranchHeadId currentMsgId direction).bind
    (fun target => descendFuel messages (messages.length + 1) target.id)

/-! ## Graph grouping and layout (`src/components/CanvasView.tsx`) -/

/-- `X_SPACING` from `CanvasView.tsx`. -/
def X_SPACING : Int := 340

/-- `Y_SPACING` from `CanvasView.tsx`. -/
def Y_SPACING : Nat := 190

/-- A regex `\w` character: ASCII letters, digits, underscore. -/
def isWordChar (c : Char) : Bool :=
  c.isAlphanum ∨ c = '_'

/-- Strip one of the chatty lead-in phrases removed by `cleanTextPreview`:
each source regex is anchored at the string start, case-insensitive, and its
trailing `.*` consumes up to (but not including) the first newline. -/
def stripLeadPhrase (phrase s : String) : String :=
  if jsStartsWith (jsToLower s) phrase then
    String.mk (s.toList.dropWhile (fun c => c ≠ '\n'))
  else s

/-- The `replace(/\*\*/g, "")` step: remove every non-overlapping `**`
pair left to right. -/
def removeStars : List Char → List Char
  | [] => []
  | [c] => [c]
  | c1 :: c2 :: rest =>
    if c1 = '*' ∧ c2 = '*' then removeStars rest
    else c1 :: removeStars (c2 :: rest)

/-- `cleanTextPreview` from `CanvasView.tsx`: drop lead-in phrases, remove
all bold markers, blank out a pure `SYSTEM_ROOT` string, and trim. -/
def cleanTextPreview (text : String) : String :=
  let s := stripLeadPhrase "sure, i can help" text
  let s := stripLeadPhrase "here is the" s
  let s := stripLeadPhrase "certainly!" s
  let s := stripLeadPhrase "i\x27d be happy to" s
  let s := String.mk (removeStars s.data)
  let s := if jsToLower s = "system_root" then "" else s
  jsTrim s

/-- Index of the first occurrence of a triple-backtick fence in a character
list. -/
def findFenceIdx : List Char → Option Nat
  | [] => none
  | c :: rest =>
    if (c :: rest).take 3 = "```".toList then some 0
    else (findFenceIdx rest).map (· + 1)

/-- Attempt the fenced-code regex of `extractCodeSnippet` at the start of the
character list: a fence, an optional `\w+` language word, a mandatory
newline, then lazily everything up to the next fence.  (Shortening the
greedy language word can never repair a failed newline test, because every
shorter split still puts a word character where the newline is required, so
maximal-munch is exact here.) -/
def tryFenceAt (cs : List Char) : Option (String × String) :=
  if cs.take 3 = "```".toList then
    let rest := cs.drop 3
    let w := rest.takeWhile isWordChar
    match rest.drop w.length with
    | [] => none
    | nl :: body =>
      if nl = '\n' then
        match findFenceIdx body with
        | some k => some (String.mk w, String.mk (body.take k))
        | none => none
      else none
  else none

/-- The regex engine scan of `extractCodeSnippet`: try the pattern at each
successive start position. -/
def fenceSearch : List Char → Option (String × String)
  | [] => none
  | c :: rest =>
    match tryFenceAt (c :: rest) with
    | some r => some r
    | none => fenceSearch rest

/-- `extractCodeSnippet` from `CanvasView.tsx`: the language (defaulted to
`"Code"`) and the first three non-blank lines of the first fenced block. -/
def extractCodeSnippet (text : String) : Option (String × String) :=
  match fenceSearch text.toList with
  | some (lang, content) =>
    let lang := if lang = "" then "Code" else lang
    let snippet :=
      joinLines (((linesOf content).filter (fun l => (jsTrim l).length ≠ 0)).take 3)
    some (lang, snippet)
  | none => none

/-- Whether a line matches `^[-*•] .+$` or `^\d+\. .+$` (the per-line
alternatives of `extractListPreview` under the `m` flag). -/
def isListItemLine (l : String) : Bool :=
  (match l.toList with
   | c :: sp :: rest =>
     decide ((c = '-' ∨ c = '*' ∨ c = '•') ∧ sp = ' ' ∧ 1 ≤ rest.length)
   | _ => false)
  || (let cs := l.toList
      let ds := cs.takeWhile Char.isDigit
      decide (1 ≤ ds.length ∧ (cs.drop ds.length).take 2 = ['.', ' '] ∧
        1 ≤ (cs.drop (ds.length + 2)).length))

/-- `extractListPreview` from `CanvasView.tsx`: the first two bulleted or
numbered lines, if any. -/
def extractListPreview (text : String) : Option String :=
  let items := (linesOf text).filter isListItemLine
  if 0 < items.length then some (joinLines (items.take 2)) else none

/-- The `/^(- |\d+\. )/m` test computing `hasList`. -/
def hasListTest (s : String) : Bool :=
  (linesOf s).any (fun l =>
    jsStartsWith l "- " ∨
      (let cs := l.toList
       let ds := cs.takeWhile Char.isDigit
       1 ≤ ds.length ∧ (cs.drop ds.length).take 2 = ['.', ' ']))

/-- `GroupedNode` from `CanvasView.tsx`.  `y` is a `Rat` because the layout
divides by 2. -/
structure GroupedNode where
  id : String
  startMessageId : String
  messages : List Message
  childrenIds : List String
  x : Int
  y : Rat
  depth : Nat
  title : String
  preview : String
  hasCode : Bool
  hasList : Bool
  language : Option String
  timestamp : Int
  internalChapters : List Chapter
  isRoot : Bool
deriving DecidableEq, Repr

/-- The `childrenMap` lookup of `groupMessages`: ids of the messages whose
(truthy) `parentId` equals `id`, in store order. -/
def childrenOf (msgs : List Message) (id : String) : List String :=
  if id = "" then []
  else (msgs.filter (fun m => m.parentId = some id)).map Message.id

/-- The `messageMap` lookup of `groupMessages` (a `Map.set` loop keeps the
last entry for a duplicated id). -/
def findLastMsg (msgs : List Message) (id : String) : Option Message :=
  (msgs.filter (fun m => m.id = id)).getLast?

/-- The inner `while (currId)` loop of `buildGroup`: follow single-child
links, collecting messages and marking them visited, stopping at a visited
id, a missing message, or a branch/leaf point.  The fuel is at least the
store size plus one, which the visited-set makes sufficient. -/
def collectChain (msgs : List Message) : Nat → Option String → List String → List Message × List String
  | 0, _, visited => ([], visited)
  | _ + 1, none, visited => ([], visited)
  | fuel + 1, some cid, visited =>
    if cid = "" then ([], visited)
    else if visited.contains cid then ([], visited)
    else
      match findLastMsg msgs cid with
      | none => ([], visited)
      | some msg =>
        let nextId : Option String :=
          match childrenOf msgs cid with
          | [c] => some c
          | _ => none
        let (rest, visited') := collectChain msgs fuel nextId (cid :: visited)
        (msg :: rest, visited')

/-- Metadata derivation for one finished group of `buildGroup` (title,
preview, code/list flags, chapters contained in the group). -/
def mkGroupNode (chapters : List Chapter) (rid : String) (startMsgId : String)
    (depth : Nat) (chain : List Message) (m0 : Message) (childIds : List String) :
    GroupedNode :=
  let tailMsg := chain.getLastD m0
  let isRootNode := m0.id = rid
  let firstUserMsg := chain.find? (fun m => m.author = Author.USER)
  let lastAiMsg := chain.reverse.find? (fun m => m.author = Author.ASSISTANT)
  let groupMessageIds := chain.map Message.id
  let internalChapters := chapters.filter (fun c => groupMessageIds.contains c.startMessageId)
  let mainChapter := internalChapters.getLast?
  let title :=
    if isRootNode then "Start"
    else
      match mainChapter with
      | some ch => ch.title
      | none =>
        match firstUserMsg with
        | some u => u.content.take 35 ++ (if 35 < u.content.length then "..." else "")
        | none => "System"
  let aiContent :=
    match lastAiMsg with
    | some m => m.content
    | none => "System"
  let hasCode := strIncludes aiContent "```"
  let hasList := hasListTest aiContent
  let pl : String × Option String :=
    if isRootNode then ("Conversation Start", none)
    else if hasCode then
      match extractCodeSnippet aiContent with
      | some (lang, snip) => (snip, some lang)
      | none => ((cleanTextPreview aiContent).take 70, none)
    else if hasList then
      match extractListPreview aiContent with
      | some lp => (lp, none)
      | none => ((cleanTextPreview aiContent).take 70, none)
    else
      ((cleanTextPreview aiContent).take 80 ++ (if 80 < aiContent.length then "..." else ""),
        none)
  { id := tailMsg.id,
    startMessageId := startMsgId,
    messages := chain,
    childrenIds := childIds,
    x := (depth : Int) * X_SPACING + 50,
    y := 0,
    depth := depth,
    title := title,
    preview := pl.1,
    hasCode := hasCode,
    hasList := hasList,
    language := pl.2,
    timestamp := tailMsg.timestamp,
    internalChapters := internalChapters,
    isRoot := isRootNode }

mutual

/-- The recursive `buildGroup` of `groupMessages`: returns the new group id
(if a group was built), the updated visited set, and the groups pushed by
this call in push order (the group itself, then its descendants).  The fuel
is a structural-recursion budget (one unit per nested call and per sibling
step); a budget of store size plus one always suffices, because every unit
spent corresponds to a distinct message. -/
def buildGroup (msgs : List Message) (chapters : List Chapter) (rid : String) :
    Nat → String → Nat → List String →
    Option String × List String × List GroupedNode
  | 0, _, _, visited => (none, visited, [])
  | fuel + 1, startMsgId, depth, visited =>
    if visited.contains startMsgId then (none, visited, [])
    else
      let (chain, visited') := collectChain msgs (msgs.length + 1) (some startMsgId) visited
      match chain with
      | [] => (none, visited', [])
      | m0 :: _ =>
        let tailMsg := chain.getLastD m0
        let (childIds, visited'', childGroups) :=
          buildGroupList msgs chapters rid fuel (childrenOf msgs tailMsg.id) (depth + 1) visited'
        (some tailMsg.id, visited'',
          mkGroupNode chapters rid startMsgId depth chain m0 childIds :: childGroups)

/-- The `tailChildren.forEach` recursion of `buildGroup`: builds the child
groups in order, collecting the ids of the groups actually built. -/
def buildGroupList (msgs : List Message) (chapters : List Chapter) (rid : String) :
    Nat → List String → Nat → List String →
    List String × List String × List GroupedNode
  | _, [], _, visited => ([], visited, [])
  | 0, _ :: _, _, visited => ([], visited, [])
  | fuel + 1, cid :: cids, depth, visited =>
    let (res, visited', gs) := buildGroup msgs chapters rid fuel cid depth visited
    let (restIds, visited'', gs') := buildGroupList msgs chapters rid fuel cids depth visited'
    match res with
    | some gid => (gid :: restIds, visited'', gs ++ gs')
    | none => (restIds, visited'', gs ++ gs')

end

/-- The `groupMap` lookup of `calculateGroupLayout` (last entry wins for a
duplicated id, as with `Map.set`). -/
def findLastGroup (gs : List GroupedNode) (id : String) : Option GroupedNode :=
  (gs.filter (fun g => g.id = id)).getLast?

/-- `getGroupChildren` from `calculateGroupLayout`: resolve `childrenIds`
through the group map, dropping unresolved ids. -/
def getGroupChildren (gs : List GroupedNode) (g : GroupedNode) : List GroupedNode :=
  g.childrenIds.filterMap (findLastGroup gs)

/-- The mutable state threaded through `assignY`: the `processedNodes` set
and the `node.y` writes performed so far. -/
structure LayoutSt where
  processed : List String
  yMap : List (String × Rat)
deriving DecidableEq, Repr

/-- Read a node's current `y`: the latest write if one happened, otherwise
the node's initial `y` (0 as built by `groupMessages`). -/
def yOf (st : LayoutSt) (g : GroupedNode) : Rat :=
  (st.yMap.lookup g.id).getD g.y

mutual

/-- The recursive `assignY` of `calculateGroupLayout`: an already-processed
node reports height 1 without moving; a leaf group takes `y = startY` with
height 1; a group with children lays the children out in sequence and
centres itself between the first and last child's `y`, reporting the summed
height.  The fuel is a structural-recursion budget (one unit per nested
call and per sibling step); group count plus one always suffices. -/
def assignY (gs : List GroupedNode) :
    Nat → GroupedNode → Rat → LayoutSt → LayoutSt × Nat
  | 0, _, _, st => (st, 1)
  | fuel + 1, node, startY, st =>
    if st.processed.contains node.id then (st, 1)
    else
      let st1 : LayoutSt := { st with processed := node.id :: st.processed }
      match getGroupChildren gs node with
      | [] => ({ st1 with yMap := (node.id, startY) :: st1.yMap }, 1)
      | c :: cs =>
        let (st2, _endY, total) := layoutChildren gs fuel (c :: cs) startY st1
        let nodeY := (yOf st2 c + yOf st2 ((c :: cs).getLastD c)) / 2
        ({ st2 with yMap := (node.id, nodeY) :: st2.yMap }, total)

/-- The `children.forEach` loop of `assignY`: each child is laid out
starting where the previous child's subtree ended (`currentY` advances by
`childHeight * Y_SPACING`), and the heights are summed. -/
def layoutChildren (gs : List GroupedNode) :
    Nat → List GroupedNode → Rat → LayoutSt → LayoutSt × Rat × Nat
  | _, [], curY, st => (st, curY, 0)
  | 0, _ :: _, curY, st => (st, curY, 0)
  | fuel + 1, c :: cs, curY, st =>
    let (st', h) := assignY gs fuel c curY st
    let (st'', endY, tot) :=
      layoutChildren gs fuel cs (curY + (h : Rat) * (Y_SPACING : Rat)) st'
    (st'', endY, h + tot)

end

/-- Handcrafted tree: root→A→B, with B having children C (t=10), D (t=20). -/
def msgA : Message :=
  { id := "A", parentId := some "root", author := Author.USER, content := "a", timestamp := 1 }

def msgB : Message :=
  { id := "B", parentId := some "A", author := Author.ASSISTANT, content := "b", timestamp := 2 }

def msgC : Message :=
  { id := "C", parentId := some "B", author := Author.USER, content := "c", timestamp := 10 }

def msgD : Message :=
  { id := "D", parentId := some "B", author := Author.USER, content := "d", timestamp := 20 }

def msgE : Message :=
  { id := "E", parentId := some "C", author := Author.ASSISTANT, content := "e", timestamp := 30 }

def msgF : Message :=
  { id := "F", parentId := some "C", author := Author.ASSISTANT, content := "f", timestamp := 40 }

def storeC3 : List Message := [ROOT_MESSAGE, msgA, msgB, msgC, msgD]

/-- The same tree extended with E (t=30), F (t=40) as children of C. -/
def storeEF : List Message := [ROOT_MESSAGE, msgA, msgB, msgC, msgD, msgE, msgF]

/-- A two-message store whose parent links form a cycle a↔b. -/
def cycA : Message :=
  { id := "a", parentId := some "b", author := Author.USER, content := "", timestamp := 1 }

def cycB : Message :=
  { id := "b", parentId := some "a", author := Author.USER, content := "", timestamp := 2 }

def cycStore : List Message := [cycA, cycB]

/-- A linear user/assistant exchange used for the segmenter theorems. -/
def mX : Message :=
  { id := "mX", parentId := some "root", author := Author.USER,
    content := "hello world question", timestamp := 1 }

def mY : Message :=
  { id := "mY", parentId := some "mX", author := Author.ASSISTANT,
    content := "answer", timestamp := 2 }

def mZ : Message :=
  { id := "mZ", parentId := some "mY", author := Author.USER,
    content := "follow up", timestamp := 3 }

def mW : Message :=
  { id := "mW", parentId := some "mZ", author := Author.ASSISTANT,
    content := "more", timestamp := 4 }

/-- A chapter whose `startMessageId` lies on some other branch. -/
def chOther : Chapter :=
  { id := "c0", title := "Other Branch", category := MessageCategory.TANGENT,
    startMessageId := "zzz", messageCount := 3, subtopics := [] }

/-! ## Claims -/

/-- C1 counterexample.  The claim says a chapter is eagerly created at
submit time if and only if the fork point already had children and is not
the root.  Counterexample: submitting a drafted branch whose fork point is
the childless root (`messages = [ROOT_MESSAGE]`, head `"root"`,
`wasDrafting = true`) still creates a chapter, because `isBranching` is
`wasDrafting || (hasChildren && head !== "root")` and the `wasDrafting`
disjunct alone suffices. -/
theorem eager_chapter_draft_counterexample :
    (sendMessageEagerChapter [ROOT_MESSAGE] "root" true "hi" "m1" "c1").isSome = true ∧
    ([ROOT_MESSAGE].any fun m => m.parentId = some "root") = false ∧
    "root" = "root" := by
  decide

/-- C1 (corrected).  A chapter is eagerly created at submit time if and only
if a draft branch was in progress, or the fork point (the active head)
already had children and is not the root: the drafting disjunct also fires
for a linear continuation or a root fork. -/
theorem eager_chapter_iff_drafting_or_fork :
    ∀ (messages : List Message) (head : String) (wasDrafting : Bool)
      (content newMsgId chapId : String),
    (∃ c, sendMessageEagerChapter messages head wasDrafting content newMsgId chapId = some c)
      ↔ (wasDrafting = true ∨
          ((messages.any fun m => m.parentId = some head) = true ∧ head ≠ "root")) := by
  intro messages head wasDrafting content newMsgId chapId
  have h1 : (∃ c, sendMessageEagerChapter messages head wasDrafting content newMsgId chapId
      = some c) ↔ isBranching messages head wasDrafting = true := by
    unfold sendMessageEagerChapter
    split
    · rename_i hb; simp [hb]
    · rename_i hb; simpa using hb
  rw [h1]
  unfold isBranching
  simp only [decide_eq_true_iff]

/-- The update-in-place paths of the fold-in never change the number of
chapters. -/
theorem updateAt_length {α : Type} (l : List α) (i : Nat) (f : α → α) :
    (updateAt l i f).length = l.length := by
  unfold updateAt
  cases h : l.get? i <;> simp [List.length_set]

/-- C2 counterexample.  The claim says a brand-new chapter is titled
`"Greeting"` only when the result is `"SAME"` and zero prior chapters exist.
Counterexample: with one prior chapter whose `startMessageId` lies on
another branch, a `"SAME"` result still appends a brand-new chapter titled
`"Greeting"`. -/
theorem greeting_title_with_prior_chapters :
    ([chOther] : List Chapter).length = 1 ∧
    (foldClassification [chOther] "SAME" [mX, mY] 2 [mX, mY] "chap-9").length = 2 ∧
    ((foldClassification [chOther] "SAME" [mX, mY] 2 [mX, mY] "chap-9").getLast?).map
        Chapter.title = some "Greeting" := by
  decide

/-- C2 (corrected).  Whenever the fold-in creates a brand-new chapter (the
output is one chapter longer than the input), that chapter's title is
`"Greeting"` exactly when the classifier result is literally `"SAME"` —
which can happen not only with zero prior chapters but also when prior
chapters exist and none of them lies on the current thread — and otherwise
it is the classifier's returned title. -/
theorem new_chapter_title_spec :
    ∀ (prev : List Chapter) (result : String) (buffer : List Message) (n : Nat)
      (valid : List Message) (cid : String),
    (foldClassification prev result buffer n valid cid).length = prev.length + 1 →
    ((foldClassification prev result buffer n valid cid).getLast?).map Chapter.title
      = some (if result = "SAME" then "Greeting" else result) := by
  intro prev result buffer n valid cid hlen
  unfold foldClassification at hlen ⊢
  cases hbuf : buffer.head? with
  | none =>
    simp only [hbuf] at hlen
    exact absurd hlen (by omega)
  | some startMsg =>
    simp only [hbuf] at hlen ⊢
    cases hidx : prev.findIdx? (fun c => c.startMessageId = startMsg.id) with
    | some i =>
      simp only [hidx] at hlen
      rw [updateAt_length] at hlen
      exact absurd hlen (by omega)
    | none =>
      simp only [hidx] at hlen ⊢
      by_cases hc : result = "SAME" ∧ 0 < prev.length
      · rw [if_pos hc] at hlen ⊢
        cases hfl : findLastIdx prev
            (fun c => (valid.map Message.id).contains c.startMessageId) with
        | some j =>
          simp only [hfl] at hlen
          rw [updateAt_length] at hlen
          exact absurd hlen (by omega)
        | none =>
          simp only [hfl]
          rw [List.getLast?_concat]
          rfl
      · rw [if_neg hc] at hlen ⊢
        rw [List.getLast?_concat]
        rfl

/-- Witness for C2's corrected theorem at a concrete input. -/
theorem new_chapter_title_spec_witness :
    ((foldClassification [] "Cat Facts" [mX] 1 [] "c9").getLast?).map Chapter.title
      = some (if "Cat Facts" = "SAME" then "Greeting" else "Cat Facts") :=
  new_chapter_title_spec [] "Cat Facts" [mX] 1 [] "c9" (by decide)

/-- C3 (confirmed).  For the handcrafted tree root→A→B with B having
children C (t=10) and D (t=20), resolving the thread with head D yields
exactly [A, B, D] (root excluded), and D is annotated with
`siblingCount = 2`, `siblingIndex = 2` and `prevSibling = C`. -/
theorem thread_reconstruction_handcrafted :
    ((currentThread storeC3 "D" false 0).map fun am => am.base.id) = ["A", "B", "D"] ∧
    (currentThread storeC3 "D" false 0).getLast? =
      some { base := msgD, siblingCount := some 2, siblingIndex := some 2,
             prevSibling := some msgC, nextSibling := none } := by
  decide

/-- C4 (confirmed).  Swiping `next` from D (siblings [C, D] by timestamp)
wraps past the end back to index 0, selecting C; the new head is then the
most-recent leaf under C — F (t=40), not C itself.  Swiping `prev` from C
wraps to the last index, selecting D. -/
theorem sibling_wraparound_leaf_descent :
    ((swipeTarget storeEF "D" "D" SwipeDir.next).map Message.id = some "C") ∧
    handleSwipeBranch storeEF "D" "D" SwipeDir.next = some "F" ∧
    handleSwipeBranch storeEF "D" "D" SwipeDir.next ≠ some "C" ∧
    ((swipeTarget storeEF "C" "C" SwipeDir.prev).map Message.id = some "D") := by
  decide

/-- C5 (confirmed).  Two consecutive batches on the same thread that both
classify as `"SAME"` produce one chapter, not two: the first fold-in (from
an empty chapter list) creates a chapter starting at the first batch's head
with `messageCount` = the first batch size, and the second fold-in extends
the chronologically-last chapter whose `startMessageId` is on the current
thread, so the final `messageCount` is the sum of both batch sizes. -/
theorem chapter_extension_same_same :
    ∀ (b1 b2 valid1 valid2 : List Message) (id1 id2 : String) (m1 m2 : Message),
    b1.head? = some m1 → b2.head? = some m2 → m2.id ≠ m1.id →
    m1.id ∈ valid2.map Message.id →
    ∃ c : Chapter,
      foldClassification (foldClassification [] "SAME" b1 b1.length valid1 id1)
          "SAME" b2 b2.length valid2 id2 = [c] ∧
      c.messageCount = b1.length + b2.length ∧
      c.startMessageId = m1.id := by
  intro b1 b2 valid1 valid2 id1 id2 m1 m2 h1 h2 hne hmem
  have hlen1 : b1.length ≠ 0 := by
    cases b1 with
    | nil => simp at h1
    | cons a l => simp
  have hf1 : foldClassification [] "SAME" b1 b1.length valid1 id1 =
      [{ id := id1, title := "Greeting", category := determineCategory "SAME",
         startMessageId := m1.id, messageCount := b1.length,
         subtopics := extractSubtopics b1 }] := by
    unfold foldClassification
    simp only [h1, List.findIdx?_nil]
    rw [if_neg (by simp)]
    simp [hlen1]
  rw [hf1]
  unfold foldClassification
  simp only [h2]
  have hfind2 : List.findIdx?
      (fun c : Chapter => decide (c.startMessageId = m2.id))
      ([{ id := id1, title := "Greeting", category := determineCategory "SAME",
          startMessageId := m1.id, messageCount := b1.length,
          subtopics := extractSubtopics b1 }] : List Chapter) = none := by
    simp [Ne.symm hne]
  rw [hfind2]
  rw [if_pos (by simp)]
  have hcont : ((valid2.map Message.id).contains m1.id) = true := by
    simpa using hmem
  have hfl2 : findLastIdx
      ([{ id := id1, title := "Greeting", category := determineCategory "SAME",
          startMessageId := m1.id, messageCount := b1.length,
          subtopics := extractSubtopics b1 }] : List Chapter)
      (fun c : Chapter => (valid2.map Message.id).contains c.startMessageId) = some 0 := by
    unfold findLastIdx
    have hex : ∃ a ∈ valid2, a.id = m1.id := by simpa using hmem
    simp [hex]
  rw [hfl2]
  exact ⟨_, rfl, rfl, rfl⟩

/-- Witness for C5 at a concrete two-batch exchange. -/
theorem chapter_extension_same_same_witness :
    ∃ c : Chapter,
      foldClassification
          (foldClassification [] "SAME" [mX, mY] ([mX, mY] : List Message).length [mX, mY] "chap-1")
          "SAME" [mZ, mW] ([mZ, mW] : List Message).length [mX, mY, mZ, mW] "chap-2" = [c] ∧
      c.messageCount = ([mX, mY] : List Message).length + ([mZ, mW] : List Message).length ∧
      c.startMessageId = mX.id :=
  chapter_extension_same_same [mX, mY] [mZ, mW] [mX, mY] [mX, mY, mZ, mW]
    "chap-1" "chap-2" mX mZ rfl rfl (by decide) (by decide)

/-- C7 counterexample.  The claim says a total provider failure always
resolves the classification to `"SAME"`, including when no prior topic
exists.  Counterexample: with `currentTopic = null` the call delegates to
`generateInitialTitle`, whose total-failure fallback is
`"Conversation Start"`, not `"SAME"`. -/
theorem classification_allfail_no_topic_counterexample :
    analyzeTopicShift none true none none = "Conversation Start" ∧
    analyzeTopicShift none true none none ≠ "SAME" := by
  decide

/-- C7 (corrected).  When every configured classification strategy fails
(returns null), the call resolves to `"SAME"` when a truthy prior topic
title exists, but to `"Conversation Start"` when `previousTitle` is null or
the empty string (the `if (!currentTopic)` guard uses JavaScript falsiness
and delegates those cases to `generateInitialTitle`). -/
theorem classification_allfail_fallback :
    ∀ (currentTopic : Option String) (preferOllama : Bool),
    analyzeTopicShift currentTopic preferOllama none none =
      match currentTopic with
      | some topic => if topic = "" then "Conversation Start" else "SAME"
      | none => "Conversation Start" := by
  intro currentTopic preferOllama
  cases currentTopic with
  | none => cases preferOllama <;> rfl
  | some topic =>
    by_cases h : topic = ""
    · subst h
      cases preferOllama <;> rfl
    · simp only [analyzeTopicShift, if_neg h]
      cases preferOllama <;> rfl

/-- Each iteration of the walk loop consumes one unit of the `loopSafety`
budget and prepends at most one message. -/
theorem threadWalkGo_length_le (messages : List Message) :
    ∀ (fuel : Nat) (cid : Option String) (acc : List Message),
    (threadWalkGo messages fuel cid acc).length ≤ fuel + acc.length := by
  intro fuel
  induction fuel with
  | zero => intro cid acc; simp [threadWalkGo]
  | succ f ih =>
    intro cid acc
    cases cid with
    | none => simp [threadWalkGo]
    | some c =>
      by_cases hc : c = ""
      · simp [threadWalkGo, hc]
      · simp only [threadWalkGo, if_neg hc]
        cases hfind : messages.find? (fun m => m.id = c) with
        | none => exact (by omega : acc.length ≤ f + 1 + acc.length)
        | some msg =>
          have h1 := ih msg.parentId (if msg.id = ROOT_MESSAGE.id then acc else msg :: acc)
          have h2 : (if msg.id = ROOT_MESSAGE.id then acc else msg :: acc).length ≤
              acc.length + 1 := by
            split <;> simp
          exact (by omega :
            (threadWalkGo messages f msg.parentId
              (if msg.id = ROOT_MESSAGE.id then acc else msg :: acc)).length ≤
              f + 1 + acc.length)

/-- On the cyclic store a↔b, every unit of walk budget collects exactly one
message: the walk uses its entire `MAX_DEPTH` budget. -/
theorem threadWalkGo_cyc :
    ∀ (f : Nat) (acc : List Message),
    (threadWalkGo cycStore f (some "a") acc).length = f + acc.length ∧
    (threadWalkGo cycStore f (some "b") acc).length = f + acc.length := by
  intro f
  induction f with
  | zero => intro acc; simp [threadWalkGo]
  | succ k ih =>
    intro acc
    refine ⟨?_, ?_⟩
    · have step : threadWalkGo cycStore (k + 1) (some "a") acc =
          threadWalkGo cycStore k (some "b") (cycA :: acc) := rfl
      rw [step]
      have h := (ih (cycA :: acc)).2
      simp only [List.length_cons] at h
      omega
    · have step : threadWalkGo cycStore (k + 1) (some "b") acc =
          threadWalkGo cycStore k (some "a") (cycB :: acc) := rfl
      rw [step]
      have h := (ih (cycB :: acc)).1
      simp only [List.length_cons] at h
      omega

/-- C8 (confirmed).  The thread-resolution walk terminates on every message
collection and head id — including cyclic or dangling `parentId` links —
collecting at most `MAX_DEPTH = 5000` messages; on the concrete cyclic
store a↔b it truncates at exactly that bound instead of hanging. -/
theorem thread_walk_bounded :
    (∀ (messages : List Message) (headId : String),
        (threadWalk messages headId).length ≤ MAX_DEPTH) ∧
    (threadWalk cycStore "a").length = MAX_DEPTH := by
  constructor
  · intro messages headId
    have h := threadWalkGo_length_le messages MAX_DEPTH (some headId) []
    simpa [threadWalk] using h
  · have h := (threadWalkGo_cyc MAX_DEPTH []).1
    simpa [threadWalk] using h

/-- The ghost guard by construction never returns a message with the
placeholder id. -/
theorem dropGhost_ne (o : Option Message) (p : Message) (h : dropGhost o = some p) :
    p.id ≠ "ghost-draft" := by
  cases o with
  | none => simp [dropGhost] at h
  | some q =>
    by_cases hq : q.id = "ghost-draft"
    · simp [dropGhost, hq] at h
    · simp only [dropGhost, if_neg hq, Option.some.injEq] at h
      subst h
      exact hq

/-- The annotation map preserves the underlying message. -/
theorem annotateWith_base (siblings : List Message) (m : Message) :
    (annotateWith siblings m).base = m := by
  unfold annotateWith
  split
  · rfl
  · rfl

/-- The annotation map preserves the underlying message. -/
theorem annotateMsg_base (msgs : List Message) (head : String) (d : Bool) (now : Int)
    (m : Message) : (annotateMsg msgs head d now m).base = m := by
  unfold annotateMsg
  cases hp : m.parentId with
  | none => rfl
  | some pid => exact annotateWith_base _ _

/-- No annotation ever reports a prev/next neighbour with the ghost id. -/
theorem annotateWith_no_ghost (siblings : List Message) (m : Message) :
    (∀ p, (annotateWith siblings m).prevSibling = some p → p.id ≠ "ghost-draft") ∧
    (∀ q, (annotateWith siblings m).nextSibling = some q → q.id ≠ "ghost-draft") := by
  unfold annotateWith
  split
  · exact ⟨fun p hp => dropGhost_ne _ _ hp, fun q hq => dropGhost_ne _ _ hq⟩
  · constructor <;> intro x hx <;> simp [plainAnnotated] at hx

/-- No annotation ever reports a prev/next neighbour with the ghost id. -/
theorem annotateMsg_no_ghost (msgs : List Message) (head : String) (d : Bool)
    (now : Int) (m : Message) :
    (∀ p, (annotateMsg msgs head d now m).prevSibling = some p → p.id ≠ "ghost-draft") ∧
    (∀ q, (annotateMsg msgs head d now m).nextSibling = some q → q.id ≠ "ghost-draft") := by
  unfold annotateMsg
  cases hp : m.parentId with
  | none =>
    constructor <;> intro x hx <;> simp [plainAnnotated] at hx
  | some pid => exact annotateWith_no_ghost _ _

/-- `findIndex` over a group whose last element alone satisfies the
predicate returns the last position. -/
theorem findIdx?_append_last (p : Message → Bool) :
    ∀ (l : List Message) (g : Message) (i : Nat),
    (∀ x ∈ l, p x = false) → p g = true →
    List.findIdx? p (l ++ [g]) i = some (i + l.length) := by
  intro l
  induction l with
  | nil =>
    intro g i _ hg
    simp [List.findIdx?_cons, hg]
  | cons a as ih =>
    intro g i hl hg
    have ha : p a = false := hl a (List.mem_cons_self a as)
    simp only [List.cons_append, List.findIdx?_cons, ha, Bool.false_eq_true, if_false]
    rw [ih g (i + 1) (fun x hx => hl x (List.mem_cons_of_mem a hx)) hg]
    simp only [List.length_cons]
    congr 1
    omega

/-- While drafting, the ghost placeholder's own sibling group is the sorted
real children of the active head with the ghost appended last. -/
theorem ghost_group_eq (msgs : List Message) (head : String) (now : Int) (pid : String) :
    siblingGroupFor msgs head true now (ghostMsg head now) pid =
      sortByTsAsc (msgs.filter (fun m => m.parentId = some head)) ++ [ghostMsg head now] := by
  unfold siblingGroupFor
  simp [ghostMsg]

/-- The ghost placeholder's annotation reports the full real sibling set
plus itself: group size and 1-based index both equal the number of real
children of the fork point plus one. -/
theorem annotate_ghost_counts (msgs : List Message) (head : String) (now : Int)
    (hng : ∀ m ∈ msgs, m.id ≠ "ghost-draft") :
    (annotateMsg msgs head true now (ghostMsg head now)).siblingCount =
      some ((msgs.filter fun m => m.parentId = some head).length + 1) ∧
    (annotateMsg msgs head true now (ghostMsg head now)).siblingIndex =
      some (((msgs.filter fun m => m.parentId = some head).length : Int) + 1) := by
  have hslen : (sortByTsAsc (msgs.filter fun m => m.parentId = some head)).length =
      (msgs.filter fun m => m.parentId = some head).length :=
    (List.perm_insertionSort _ _).length_eq
  have hann : annotateMsg msgs head true now (ghostMsg head now) =
      annotateWith
        (sortByTsAsc (msgs.filter fun m => m.parentId = some head) ++ [ghostMsg head now])
        (ghostMsg head now) := by
    have e1 : annotateMsg msgs head true now (ghostMsg head now) =
        annotateWith (siblingGroupFor msgs head true now (ghostMsg head now) head)
          (ghostMsg head now) := rfl
    rw [e1, ghost_group_eq]
  rw [hann]
  unfold annotateWith
  rw [if_pos (by simp)]
  have hfi : List.findIdx? (fun s => decide (s.id = (ghostMsg head now).id))
      (sortByTsAsc (msgs.filter fun m => m.parentId = some head) ++ [ghostMsg head now]) =
      some (sortByTsAsc (msgs.filter fun m => m.parentId = some head)).length := by
    have hfalse : ∀ x ∈ sortByTsAsc (msgs.filter fun m => m.parentId = some head),
        (fun s => decide (s.id = (ghostMsg head now).id)) x = false := by
      intro x hx
      have hx1 : x ∈ msgs.filter fun m => m.parentId = some head :=
        (List.perm_insertionSort _ _).mem_iff.mp hx
      have hx2 : x ∈ msgs := (List.mem_filter.mp hx1).1
      simpa [ghostMsg] using hng x hx2
    have htrue : (fun s => decide (s.id = (ghostMsg head now).id)) (ghostMsg head now)
        = true := by
      simp
    simpa using findIdx?_append_last _ _ _ 0 hfalse htrue
  simp only [hfi]
  constructor
  · simp [hslen]
  · simp [hslen]

/-- C9 (confirmed).  While a draft branch is in progress (over any store
whose real messages do not use the reserved ghost id), the resolved thread
ends with the ghost placeholder as an extra last element; no entry of the
thread — real or ghost — ever reports the placeholder as its `prevSibling`
or `nextSibling`; and the placeholder itself reports a sibling group of all
real children of the fork point plus itself, with its `siblingIndex` equal
to that group size. -/
theorem ghost_draft_sibling_annotation :
    ∀ (messages : List Message) (head : String) (now : Int),
    (∀ m ∈ messages, m.id ≠ "ghost-draft") →
    (∀ am ∈ currentThread messages head true now,
        (∀ p, am.prevSibling = some p → p.id ≠ "ghost-draft") ∧
        (∀ q, am.nextSibling = some q → q.id ≠ "ghost-draft")) ∧
    (∃ rest gam, currentThread messages head true now = rest ++ [gam] ∧
        gam.base = ghostMsg head now ∧
        gam.siblingCount =
          some ((messages.filter fun m => m.parentId = some head).length + 1) ∧
        gam.siblingIndex =
          some (((messages.filter fun m => m.parentId = some head).length : Int) + 1)) := by
  intro messages head now hng
  constructor
  · intro am ham
    unfold currentThread at ham
    simp only [if_true] at ham
    rw [List.mem_map] at ham
    obtain ⟨msg, -, rfl⟩ := ham
    exact annotateMsg_no_ghost messages head true now msg
  · refine ⟨(threadWalk messages head).map (annotateMsg messages head true now),
      annotateMsg messages head true now (ghostMsg head now), ?_, ?_, ?_, ?_⟩
    · unfold currentThread
      simp [List.map_append]
    · exact annotateMsg_base messages head true now (ghostMsg head now)
    · exact (annotate_ghost_counts messages head now hng).1
    · exact (annotate_ghost_counts messages head now hng).2

/-- Witness for C9 on the handcrafted store with fork point B (two real
children C and D, so the ghost reports a group of size 3). -/
theorem ghost_draft_sibling_annotation_witness :
    (∀ am ∈ currentThread storeC3 "B" true 99,
        (∀ p, am.prevSibling = some p → p.id ≠ "ghost-draft") ∧
        (∀ q, am.nextSibling = some q → q.id ≠ "ghost-draft")) ∧
    (∃ rest gam, currentThread storeC3 "B" true 99 = rest ++ [gam] ∧
        gam.base = ghostMsg "B" 99 ∧
        gam.siblingCount =
          some ((storeC3.filter fun m => m.parentId = some "B").length + 1) ∧
        gam.siblingIndex =
          some (((storeC3.filter fun m => m.parentId = some "B").length : Int) + 1)) :=
  ghost_draft_sibling_annotation storeC3 "B" 99 (by decide)

/-- Under a rank function that grows strictly along parent links (the
acyclicity of the forest invariant), each descent step strictly increases
the rank, so a budget of one more than the rank headroom reaches a leaf. -/
theorem descend_aux (messages : List Message) (rank : String → Nat) (B : Nat)
    (hr : ∀ m ∈ messages, ∀ p, m.parentId = some p → rank p < rank m.id)
    (hb : ∀ m ∈ messages, rank m.id ≤ B) :
    ∀ (f : Nat) (ptr : String), B + 1 ≤ f + rank ptr → 1 ≤ f →
    (descendFuel messages f ptr).isSome = true := by
  intro f
  induction f with
  | zero =>
    intro ptr h1 h2
    exact absurd h2 (by omega)
  | succ k ih =>
    intro ptr h1 _
    cases hs : sortByTsDesc (messages.filter fun m => m.parentId = some ptr) with
    | nil => simp [descendFuel, hs]
    | cons c rest =>
      simp only [descendFuel, hs]
      have hmemS : c ∈ sortByTsDesc (messages.filter fun m => m.parentId = some ptr) := by
        rw [hs]; exact List.mem_cons_self _ _
      have hc : c ∈ messages.filter fun m => m.parentId = some ptr :=
        (List.perm_insertionSort _ _).mem_iff.mp hmemS
      have hcm : c ∈ messages := (List.mem_filter.mp hc).1
      have hcp : c.parentId = some ptr := by simpa using (List.mem_filter.mp hc).2
      have hlt : rank ptr < rank c.id := hr c hcm ptr hcp
      have hle : rank c.id ≤ B := hb c hcm
      exact ih c.id (by omega) (by omega)

/-- On the cyclic store a↔b the descent loop never reaches a leaf, whatever
the budget: the source loop would run forever. -/
theorem descend_cyc :
    ∀ fuel : Nat,
    descendFuel cycStore fuel "a" = none ∧ descendFuel cycStore fuel "b" = none := by
  intro fuel
  induction fuel with
  | zero => exact ⟨rfl, rfl⟩
  | succ k ih =>
    refine ⟨?_, ?_⟩
    · have step : descendFuel cycStore (k + 1) "a" = descendFuel cycStore k "b" := rfl
      rw [step]; exact ih.2
    · have step : descendFuel cycStore (k + 1) "b" = descendFuel cycStore k "a" := rfl
      rw [step]; exact ih.1

/-- C10 (confirmed).  The descend-to-most-recent-leaf loop of
`handleSwipeBranch` carries no hop bound, and terminates exactly under the
forest precondition: whenever a rank function certifies that every stored
parent link moves strictly deeper (acyclicity) with ranks bounded by `B`,
a budget of `B + 2` steps reaches a leaf from any start; while on the
concrete store whose parent links form the cycle a↔b, no budget at all
completes the descent — the source loop would hang forever. -/
theorem leaf_descent_termination :
    (∀ (messages : List Message) (rank : String → Nat) (B : Nat) (start : String),
        (∀ m ∈ messages, ∀ p, m.parentId = some p → rank p < rank m.id) →
        (∀ m ∈ messages, rank m.id ≤ B) →
        (descendFuel messages (B + 2) start).isSome = true) ∧
    (∀ fuel : Nat, descendFuel cycStore fuel "a" = none) := by
  constructor
  · intro messages rank B start hr hb
    exact descend_aux messages rank B hr hb (B + 2) start (by omega) (by omega)
  · intro fuel
    exact (descend_cyc fuel).1

/-- A two-message acyclic chain used by the C10 witness. -/
def wP : Message :=
  { id := "wa", parentId := some "wr", author := Author.USER, content := "",
    timestamp := 1 }

def wQ : Message :=
  { id := "wb", parentId := some "wa", author := Author.ASSISTANT, content := "",
    timestamp := 2 }

/-- A concrete rank function certifying that `[wP, wQ]` is acyclic. -/
def rankW : String → Nat := fun s => if s = "wr" then 0 else if s = "wa" then 1 else 2

/-- Witness for C10's termination half on a concrete acyclic store. -/
theorem leaf_descent_termination_witness :
    (descendFuel [wP, wQ] (2 + 2) "wa").isSome = true :=
  leaf_descent_termination.1 [wP, wQ] rankW 2 "wa"
    (by
      intro m hm p hp
      fin_cases hm <;> simp only [wP, wQ, Option.some.injEq] at hp <;> subst hp <;> decide)
    (by
      intro m hm
      fin_cases hm <;> decide)

end ThreadCanvas
